import Mathlib

/-
Verification development for the pdb-addr2line resolver (src/main.rs).

The embedding models the per-module resolution pass of `dump_pdb` together
with its helpers.  Machine integers (u32/u64 offsets, lengths, line numbers)
are modelled as `Nat`; the `depth` counter (Rust `i32`, which the code can in
principle drive negative) is modelled as `Int`.  Overflow of
`start.0 + proc.len` is assumed absent.  Rust panics (`unwrap`, `expect`) and
run-terminating situations are modelled as `Option.none`; fatal string-table
and iterator errors (which the claims do not touch) are not modelled: file
names are carried directly on the line records.  The Rust `Vec` used as a
stack is modelled as a `List` whose head is the stack top (`Vec::push` = cons,
`Vec::last` = head, `Vec::pop` = tail).
-/

namespace PdbAddr2Line

/-- A raw line record as delivered by the line program / inlinee line
iterators, before address translation: `pdb::LineInfo` restricted to the
fields the code reads (`offset`, `length`, the file name text the code
resolves through `get_file_info`/`to_string_lossy`, and `line_start`). -/
structure RawLine where
  offset : Nat
  length : Option Nat
  file : String
  line : Nat
deriving Repr, DecidableEq

/-- File and line number mapping for an instruction address
(struct `LineInfo` from src/main.rs, lines 12-21). -/
structure LineInfo where
  address : Nat
  size : Option Nat
  file : String
  line : Nat
deriving Repr, DecidableEq

/-- One emitted output row: the function name, file and line printed by
`dump_pdb` for a queried target address. -/
structure Frame where
  fname : String
  file : String
  line : Nat
deriving Repr, DecidableEq

/-- A procedure symbol (`SymbolData::Procedure`): the fields the code reads
(`offset`, `len`, `name`).  Section-relative offsets are abstracted as `Nat`
keys of the address map. -/
structure ProcSym where
  offset : Nat
  len : Nat
  name : String
deriving Repr, DecidableEq

/-- An inline-site symbol (`SymbolData::InlineSite`): the code reads only the
`inlinee` id. -/
structure InlineSiteSym where
  inlinee : Nat
deriving Repr, DecidableEq

/-- Outcome of `symbol.parse()` as the code distinguishes it: a procedure, an
inline site, or anything else (other variants and parse failures alike fall
into the `_ => {}` arm). -/
inductive SymData where
  | procedure (p : ProcSym)
  | inlineSite (site : InlineSiteSym)
  | other
deriving Repr, DecidableEq

/-- One symbol of the module's linear symbol stream: its scope flags
(`starts_scope()` / `ends_scope()`, which depend only on the raw record kind)
and its parse outcome. -/
structure Sym where
  startsScope : Bool
  endsScope : Bool
  data : SymData
deriving Repr, DecidableEq

/-- One item of the global id-information stream (`ipi.iter()`): either an
iterator error (skipped by the `if let Ok(i) = i` guard) or an entry with its
index and, when `parse()` yields `IdData::Function`, that function's name
(`none` covers both other id kinds and parse failures, which the code treats
alike). -/
inductive IdItem where
  | err
  | entry (index : Nat) (fnName : Option String)
deriving Repr, DecidableEq

/-- The read-only per-module context consumed by one resolution pass:
the address map (`offset.to_rva`), the line program
(`program.lines_at_offset`), the inlinee table (`inlinees.get`, with the
looked-up inlinee's `lines(parent_offset, &site)` iterator given as a
function of the parent offset), and the id stream `ipi`. -/
structure ModuleCtx where
  addressMap : Nat → Option Nat
  linesAt : Nat → List RawLine
  inlinees : Nat → Option (Nat → List RawLine)
  ipi : List IdItem

/-- `collect_lines` (src/main.rs lines 23-50): translate each record's offset,
dropping the record when translation fails (`None => continue`), and keep the
length, file and line of the rest. -/
def collect_lines (am : Nat → Option Nat) : List RawLine → List LineInfo
  | [] => []
  | r :: rest =>
    match am r.offset with
    | none => collect_lines am rest
    | some rva => ⟨rva, r.length, r.file, r.line⟩ :: collect_lines am rest

/-- The procedure's direct line query (src/main.rs lines 111-125): walk the
line records with a one-ahead peek; translation of an offset uses
`.expect("invalid rva")`, i.e. failure aborts the run (`none`).  The peeked
record's offset is only translated after `rva <= target` held (Rust `&&`
short-circuits).  When the peek is empty (last record) the row is printed
unconditionally.  Returns the rows printed for this target (at most one). -/
def procLineQuery (am : Nat → Option Nat) (procName : String) (target : Nat) :
    List RawLine → Option (List Frame)
  | [] => some []
  | r :: rest =>
    match am r.offset with
    | none => none
    | some rva =>
      match rest with
      | [] => some [⟨procName, r.file, r.line⟩]
      | r2 :: _ =>
        if rva ≤ target then
          match am r2.offset with
          | none => none
          | some rva2 =>
            if target < rva2 then some [⟨procName, r.file, r.line⟩]
            else procLineQuery am procName target rest
        else procLineQuery am procName target rest

/-- The same one-ahead point query with translation specialised to the
identity (records already carry resolved addresses): a record is reported
when its offset is `<= target` and the next record's offset is `> target`;
the last record is reported unconditionally once reached. -/
def covering_line : List RawLine → Nat → Option RawLine
  | [], _ => none
  | [r], _ => some r
  | r :: r2 :: rest, a =>
    if r.offset ≤ a ∧ a < r2.offset then some r
    else covering_line (r2 :: rest) a

/-- The last record of a line table (helper mirroring the shape of
`covering_line`). -/
def lastRecord : List RawLine → Option RawLine
  | [] => none
  | [r] => some r
  | _ :: r2 :: rest => lastRecord (r2 :: rest)

/-- Strictly increasing offsets, the hypothesis of claim C1. -/
def strictIncrB : List RawLine → Bool
  | [] => true
  | [_] => true
  | r :: r2 :: rest => decide (r.offset < r2.offset) && strictIncrB (r2 :: rest)

/-- Whether a record's known length covers the address (the
`R.length` disjunct of the spec's coverage rule). -/
def lenCoversB (a : Nat) (r : RawLine) : Bool :=
  match r.length with
  | some len => decide (a < r.offset + len)
  | none => false

/-- Modelled from the spec's words (§4.2), for comparison with the code's
`covering_line`: record `q` of the table covers address `a` iff
`q.offset <= a` and either its length is known and `a < q.offset + length`,
or the next record's offset is `> a`, or `q` is the last record (for the
last record that tail disjunction is trivially true). -/
def specCoversB (a : Nat) : List RawLine → RawLine → Bool
  | [], _ => false
  | [r], q => decide (q = r) && decide (r.offset ≤ a)
  | r :: r2 :: rest, q =>
    (decide (q = r) && decide (r.offset ≤ a) &&
      (lenCoversB a r || decide (a < r2.offset)))
    || specCoversB a (r2 :: rest) q

/-- The inline range-membership test of src/main.rs line 147:
`l.address <= target && l.address + l.size.unwrap() > target`.
The `unwrap` panics when the size is unknown, but Rust's `&&` short-circuits,
so the panic (`none`) only happens when `l.address <= target` held. -/
def rangeTest (l : LineInfo) (target : Nat) : Option Bool :=
  if l.address ≤ target then
    match l.size with
    | none => none
    | some sz => some (decide (target < l.address + sz))
  else some false

/-- The scan of the id stream at src/main.rs lines 149-164: walk `ipi`,
skipping error items; at the first entry whose index equals the inlinee id,
return its function name when it parses as `IdData::Function` and give up
otherwise (the loop `break`s after the first index match either way). -/
def findInlineeName (inlineeId : Nat) : List IdItem → Option String
  | [] => none
  | IdItem.err :: rest => findInlineeName inlineeId rest
  | IdItem.entry idx nm :: rest =>
    if idx = inlineeId then nm else findInlineeName inlineeId rest

/-- Whether the id stream holds an entry whose index equals the inlinee id and
whose payload parsed as a function-kind record (the hypothesis of claim C3,
phrased over the stream). -/
def hasFnEntry (ipi : List IdItem) (inlineeId : Nat) : Bool :=
  ipi.any fun item =>
    match item with
    | IdItem.entry idx (some _) => idx == inlineeId
    | _ => false

/-- The frame printed for a matching inline line (src/main.rs lines 148-166):
the resolved function name, or the sentinel `"unknown_inline_function"` when
`found_inlinee` stayed false. -/
def inlineFrameFor (ipi : List IdItem) (inlineeId : Nat) (l : LineInfo) : Frame :=
  ⟨(findInlineeName inlineeId ipi).getD "unknown_inline_function", l.file, l.line⟩

/-- The `for target in &targets` loop inside the inline-line loop
(src/main.rs lines 146-168): test each target against the line's range and
print one frame per match; an unknown size with `l.address <= target` aborts
(`none`). -/
def inlineTargetsEmit (ipi : List IdItem) (inlineeId : Nat) (l : LineInfo) :
    List Nat → Option (List (Nat × Frame))
  | [] => some []
  | t :: ts =>
    match rangeTest l t with
    | none => none
    | some true =>
      (inlineTargetsEmit ipi inlineeId l ts).map
        (fun rest => (t, inlineFrameFor ipi inlineeId l) :: rest)
    | some false => inlineTargetsEmit ipi inlineeId l ts

/-- The `for l in lines` loop (src/main.rs lines 145-169): per collected line,
run the target loop, concatenating the printed rows in order. -/
def inlineLinesEmit (ipi : List IdItem) (inlineeId : Nat) :
    List LineInfo → List Nat → Option (List (Nat × Frame))
  | [], _ => some []
  | l :: ls, ts =>
    match inlineTargetsEmit ipi inlineeId l ts with
    | none => none
    | some out1 => (inlineLinesEmit ipi inlineeId ls ts).map (fun out2 => out1 ++ out2)

/-- Processing of one inline site once its parent offset is known
(src/main.rs lines 138-170): look the inlinee id up in the inlinee table; if
absent skip silently, otherwise collect its lines anchored at the parent
offset and run the emission loops. -/
def inlineSiteEmit (ctx : ModuleCtx) (targets : List Nat) (parentOffset : Nat)
    (site : InlineSiteSym) : Option (List (Nat × Frame)) :=
  match ctx.inlinees site.inlinee with
  | none => some []
  | some lineFn =>
    inlineLinesEmit ctx.ipi site.inlinee
      (collect_lines ctx.addressMap (lineFn parentOffset)) targets

/-- The `for target in &targets` loop of the procedure arm (src/main.rs
lines 108-127): for each target inside `[start, start + proc.len)`, run the
direct line query and tag its rows with the target. -/
def procTargetsEmit (am : Nat → Option Nat) (linesAt : Nat → List RawLine)
    (p : ProcSym) (start : Nat) : List Nat → Option (List (Nat × Frame))
  | [] => some []
  | t :: ts =>
    if start ≤ t ∧ t < start + p.len then
      match procLineQuery am p.name t (linesAt p.offset) with
      | none => none
      | some fs =>
        match procTargetsEmit am linesAt p start ts with
        | none => none
        | some out => some (fs.map (fun f => (t, f)) ++ out)
    else procTargetsEmit am linesAt p start ts

/-- The scope-walker state of the symbol loop (src/main.rs lines 82-85):
`depth`, `inc_next`, and the `proc_offsets` stack of `(depth, offset)` pairs
(head of the list = top of the Rust `Vec`). -/
structure ScopeSt where
  depth : Int
  incNext : Bool
  procOffsets : List (Int × Nat)
deriving Repr, DecidableEq

/-- The scope bookkeeping performed for one symbol (src/main.rs lines 87-104
plus the `proc_offsets.push` of the procedure arm, line 104): apply the
deferred increment, on a scope end decrement the depth and pop the top
procedure frame when its recorded depth is `>=` the new depth, and on a
procedure symbol push `(depth, offset)`. -/
def scopeStep (st : ScopeSt) (s : Sym) : ScopeSt :=
  let d1 : Int := if st.incNext then st.depth + 1 else st.depth
  let dps : Int × List (Int × Nat) :=
    if s.endsScope then
      match st.procOffsets with
      | [] => (d1 - 1, [])
      | (pd, off) :: tl =>
        if pd ≥ d1 - 1 then (d1 - 1, tl) else (d1 - 1, (pd, off) :: tl)
    else (d1, st.procOffsets)
  match s.data with
  | SymData.procedure p => ⟨dps.1, s.startsScope, (dps.1, p.offset) :: dps.2⟩
  | _ => ⟨dps.1, s.startsScope, dps.2⟩

/-- One iteration of the symbol loop (src/main.rs lines 87-174): scope
bookkeeping, then the parse match.  A procedure whose offset fails
translation is skipped (`_ => {}`); an inline site reads the parent offset
with `proc_offsets.last() ... .unwrap()`, which aborts (`none`) on an empty
stack. -/
def stepSym (ctx : ModuleCtx) (targets : List Nat) (st : ScopeSt) (s : Sym) :
    Option (ScopeSt × List (Nat × Frame)) :=
  let st2 := scopeStep st s
  match s.data with
  | SymData.procedure p =>
    (match ctx.addressMap p.offset with
     | none => some (st2, [])
     | some start =>
       (procTargetsEmit ctx.addressMap ctx.linesAt p start targets).map
         (fun out => (st2, out)))
  | SymData.inlineSite site =>
    (match st2.procOffsets with
     | [] => none
     | (_, parentOffset) :: _ =>
       (inlineSiteEmit ctx targets parentOffset site).map (fun out => (st2, out)))
  | SymData.other => some (st2, [])

/-- The full symbol loop from a given walker state, concatenating the printed
rows in stream order; `none` when any iteration panicked. -/
def runSymbols (ctx : ModuleCtx) (targets : List Nat) :
    ScopeSt → List Sym → Option (List (Nat × Frame))
  | _, [] => some []
  | st, s :: rest =>
    match stepSym ctx targets st s with
    | none => none
    | some (st2, out1) =>
      match runSymbols ctx targets st2 rest with
      | none => none
      | some out2 => some (out1 ++ out2)

/-- The initial walker state of each module (src/main.rs lines 82-85). -/
def initWalk : ScopeSt := ⟨0, false, []⟩

/-- One module's resolution pass of `dump_pdb` (the body of the module loop,
src/main.rs lines 67-175): the symbol loop from the initial state.  Modules
are processed independently and sequentially, so one module captures the
claims' behaviour. -/
def processModule (ctx : ModuleCtx) (targets : List Nat) (syms : List Sym) :
    Option (List (Nat × Frame)) :=
  runSymbols ctx targets initWalk syms

/-- Whether some procedure symbol of the stream has a translatable offset
whose flat range `[start, start + len)` contains the target (the procedure
in-range test of src/main.rs line 109, quantified over the stream). -/
def symProcCovers (am : Nat → Option Nat) (t : Nat) (s : Sym) : Bool :=
  match s.data with
  | SymData.procedure p =>
    (match am p.offset with
     | some start => decide (start ≤ t) && decide (t < start + p.len)
     | none => false)
  | _ => false

/-- The target lies inside at least one procedure's flat range. -/
def inSomeProcRange (am : Nat → Option Nat) (syms : List Sym) (t : Nat) : Bool :=
  syms.any (symProcCovers am t)

/-- Modelled from the spec's words (§3, §8) as the reference semantics of
scope nesting: one currently-open scope, either a procedure scope carrying
its offset or any other (block/inline) scope. -/
inductive ScopeKind where
  | procScope (offset : Nat)
  | blockScope
deriving Repr, DecidableEq

/-- The kind of scope a symbol opens. -/
def kindOf (s : Sym) : ScopeKind :=
  match s.data with
  | SymData.procedure p => ScopeKind.procScope p.offset
  | _ => ScopeKind.blockScope

/-- Reference semantics of one symbol on the stack of currently-open scopes
(head = innermost): a scope-ending symbol closes the innermost open scope
(`none` when there is none, i.e. the stream is malformed), and a
scope-opening symbol opens a new one. -/
def gtStep (gt : List ScopeKind) (s : Sym) : Option (List ScopeKind) :=
  match (if s.endsScope then
           match gt with
           | [] => none
           | _ :: tl => some tl
         else some gt) with
  | none => none
  | some g1 => some (if s.startsScope then kindOf s :: g1 else g1)

/-- Reference scope stack after a list of symbols. -/
def gtRun (gt : List ScopeKind) : List Sym → Option (List ScopeKind)
  | [] => some gt
  | s :: rest =>
    match gtStep gt s with
    | none => none
    | some g1 => gtRun g1 rest

/-- Whether a scope is a procedure scope. -/
def isProcScope : ScopeKind → Bool
  | ScopeKind.procScope _ => true
  | ScopeKind.blockScope => false

/-- The count of currently-open, not-yet-closed procedure scopes. -/
def openProcCount (gt : List ScopeKind) : Nat := (gt.filter isProcScope).length

/-- The innermost currently-open procedure's offset. -/
def innermostProc : List ScopeKind → Option Nat
  | [] => none
  | ScopeKind.procScope off :: _ => some off
  | ScopeKind.blockScope :: rest => innermostProc rest

/-- The expected `proc_offsets` stack for a reference scope stack: one
`(depth, offset)` pair per open procedure scope, innermost first, the depth
being the number of scopes strictly below it. -/
def gtProcs : List ScopeKind → List (Int × Nat)
  | [] => []
  | ScopeKind.procScope off :: rest => ((rest.length : Int), off) :: gtProcs rest
  | ScopeKind.blockScope :: rest => gtProcs rest

/-- Every symbol that parses as a procedure is a scope-opening record (true
of the raw PDB record kinds the parser maps to `SymbolData::Procedure`). -/
def procsStartScope (syms : List Sym) : Bool :=
  syms.all fun s =>
    match s.data with
    | SymData.procedure _ => s.startsScope
    | _ => true

/-- A well-formed symbol stream: every scope-end is matched by a prior
scope-open (the reference walk never underflows), and procedure records open
scopes. -/
def wellFormed (syms : List Sym) : Prop :=
  (gtRun [] syms).isSome = true ∧ procsStartScope syms = true

/-- The simulation invariant between the code's walker state and the
reference scope stack: the `proc_offsets` stack lists exactly the open
procedure scopes with their depths, the code's `depth` lags the open-scope
count by the pending deferred increment, and a pending increment means some
scope was just opened. -/
def Inv (st : ScopeSt) (gt : List ScopeKind) : Prop :=
  st.procOffsets = gtProcs gt ∧
  st.depth = (gt.length : Int) - (if st.incNext then 1 else 0) ∧
  (st.incNext = true → gt ≠ [])

/-- The walker state after a list of symbols (the scope-bookkeeping part of
the symbol loop, without the emission side). -/
def scopeRun (st : ScopeSt) : List Sym → ScopeSt
  | [] => st
  | s :: rest => scopeRun (scopeStep st s) rest

/-
Concrete example data used by closed theorems and witnesses.
-/

/-- Example module: one procedure `foo` at offset 0x1000, length 0x100, whose
line table holds the single record (0x1000, "a.c", 10); the address map is
the identity, there are no inlinees and no id entries. -/
def exCtx : ModuleCtx where
  addressMap := fun o => some o
  linesAt := fun o => if o = 0x1000 then [⟨0x1000, none, "a.c", 10⟩] else []
  inlinees := fun _ => none
  ipi := []

/-- Symbol stream with just the `foo` procedure record. -/
def exSyms : List Sym := [⟨true, false, SymData.procedure ⟨0x1000, 0x100, "foo"⟩⟩]

/-- A well-formed two-symbol stream: `foo` opens a scope and the matching
scope end closes it. -/
def exScopeSyms : List Sym :=
  [⟨true, false, SymData.procedure ⟨0x1000, 0x100, "foo"⟩⟩,
   ⟨false, true, SymData.other⟩]

/-- Example module for the unknown-size abort: the procedure `foo` contains
an inline site for inlinee 9 whose single collected line has no length. -/
def ctxC2 : ModuleCtx where
  addressMap := fun o => some o
  linesAt := fun o => if o = 0x1000 then [⟨0x1000, some 0x100, "a.c", 10⟩] else []
  inlinees := fun i => if i = 9 then some (fun _ => [⟨0x1000, none, "b.c", 42⟩]) else none
  ipi := []

/-- Symbol stream for `ctxC2`: the procedure, then its inline site. -/
def symsC2 : List Sym :=
  [⟨true, false, SymData.procedure ⟨0x1000, 0x100, "foo"⟩⟩,
   ⟨true, false, SymData.inlineSite ⟨9⟩⟩]

/-- Example module for the translation abort: `foo`'s line table holds one
record whose offset 0xBAD the address map refuses to translate. -/
def ctxC5 : ModuleCtx where
  addressMap := fun o => if o = 0xBAD then none else some o
  linesAt := fun o => if o = 0x1000 then [⟨0xBAD, none, "a.c", 10⟩] else []
  inlinees := fun _ => none
  ipi := []

/-- Symbol stream for `ctxC5`: just the `foo` procedure record. -/
def symsC5 : List Sym := [⟨true, false, SymData.procedure ⟨0x1000, 0x100, "foo"⟩⟩]

/-- Example module where inlinee 7's lines cover the flat range
[0x2000, 0x2010), which lies outside `foo`'s procedure range
[0x1000, 0x1100), and the id stream names inlinee 7 `bar`. -/
def ctxC7 : ModuleCtx where
  addressMap := fun o => some o
  linesAt := fun o => if o = 0x1000 then [⟨0x1000, none, "a.c", 10⟩] else []
  inlinees := fun i => if i = 7 then some (fun _ => [⟨0x2000, some 0x10, "b.c", 42⟩]) else none
  ipi := [IdItem.entry 7 (some "bar")]

/-- Symbol stream for `ctxC7`: the procedure, then its inline site. -/
def symsC7 : List Sym :=
  [⟨true, false, SymData.procedure ⟨0x1000, 0x100, "foo"⟩⟩,
   ⟨true, false, SymData.inlineSite ⟨7⟩⟩]

/-- A two-record strictly increasing line table. -/
def exTable : List RawLine := [⟨0x10, none, "a", 1⟩, ⟨0x20, some 8, "a", 2⟩]

/-- A minimal module context with no lines, inlinees or id entries. -/
def exInlineCtx : ModuleCtx where
  addressMap := fun o => some o
  linesAt := fun _ => []
  inlinees := fun _ => none
  ipi := []

/-
Supporting lemmas.
-/

lemma gtProcs_head_lt : ∀ (gt : List ScopeKind) (pd : Int) (off : Nat),
    (gtProcs gt).head? = some (pd, off) → pd < (gt.length : Int) := by
  intro gt
  induction gt with
  | nil => intro pd off h; simp [gtProcs] at h
  | cons k rest ih =>
    intro pd off h
    cases k with
    | procScope o =>
      simp [gtProcs] at h
      simp [List.length_cons]
      omega
    | blockScope =>
      have h2 := ih pd off (by simpa [gtProcs] using h)
      simp [List.length_cons]
      omega

lemma gtProcs_length : ∀ gt : List ScopeKind, (gtProcs gt).length = openProcCount gt := by
  intro gt
  induction gt with
  | nil => rfl
  | cons k rest ih =>
    cases k with
    | procScope o =>
      simp [gtProcs, openProcCount, List.filter_cons, isProcScope] at *
      omega
    | blockScope =>
      simp [gtProcs, openProcCount, List.filter_cons, isProcScope] at *
      omega

lemma gtProcs_head_inner : ∀ gt : List ScopeKind,
    ((gtProcs gt).head?).map Prod.snd = innermostProc gt := by
  intro gt
  induction gt with
  | nil => rfl
  | cons k rest ih =>
    cases k with
    | procScope o => simp [gtProcs, innermostProc] at *
    | blockScope =>
      simp [gtProcs, innermostProc] at *
      assumption

lemma gtRun_append (pre rest : List Sym) : ∀ g, gtRun g (pre ++ rest) =
    match gtRun g pre with
    | none => none
    | some g2 => gtRun g2 rest := by
  induction pre with
  | nil => intro g; simp [gtRun]
  | cons s t ih =>
    intro g
    simp only [List.cons_append, gtRun]
    cases gtStep g s with
    | none => rfl
    | some g1 => exact ih g1

lemma scopeStep_inv (st : ScopeSt) (s : Sym) (gt gt1 : List ScopeKind)
    (hinv : Inv st gt) (hstep : gtStep gt s = some gt1)
    (hps : ∀ p, s.data = SymData.procedure p → s.startsScope = true) :
    Inv (scopeStep st s) gt1 := by
  obtain ⟨hpo, hdep, hne⟩ := hinv
  obtain ⟨ss, es, data⟩ := s
  simp only at hps
  have hd1 : (if st.incNext then st.depth + 1 else st.depth) = (gt.length : Int) := by
    cases hb : st.incNext <;> simp [hb] at hdep ⊢ <;> omega
  cases es with
  | false =>
    have hgt1 : gt1 = if ss then kindOf ⟨ss, false, data⟩ :: gt else gt := by
      simp [gtStep] at hstep
      exact hstep.symm
    cases data with
    | procedure p =>
      have hss : ss = true := hps p rfl
      subst hss
      subst hgt1
      refine ⟨?_, ?_, ?_⟩
      · simp [scopeStep, hpo, hd1, kindOf, gtProcs]
      · simp [scopeStep, hd1, kindOf]
      · simp [kindOf]
    | inlineSite site =>
      subst hgt1
      cases ss <;>
        refine ⟨?_, ?_, ?_⟩ <;>
          simp [scopeStep, hpo, hd1, kindOf, gtProcs]
    | other =>
      subst hgt1
      cases ss <;>
        refine ⟨?_, ?_, ?_⟩ <;>
          simp [scopeStep, hpo, hd1, kindOf, gtProcs]
  | true =>
    cases gt with
    | nil => simp [gtStep] at hstep
    | cons k gtl =>
      have hgt1 : gt1 = if ss then kindOf ⟨ss, true, data⟩ :: gtl else gtl := by
        simp [gtStep] at hstep
        exact hstep.symm
      have hd2 : (if st.incNext then st.depth + 1 else st.depth) - 1 = (gtl.length : Int) := by
        simp [List.length_cons] at hd1
        omega
      have hpop :
          (match st.procOffsets with
           | [] => ((if st.incNext then st.depth + 1 else st.depth) - 1, ([] : List (Int × Nat)))
           | (pd, off) :: tl =>
             if pd ≥ (if st.incNext then st.depth + 1 else st.depth) - 1
             then ((if st.incNext then st.depth + 1 else st.depth) - 1, tl)
             else ((if st.incNext then st.depth + 1 else st.depth) - 1, (pd, off) :: tl)) =
          ((gtl.length : Int), gtProcs gtl) := by
        cases k with
        | procScope o =>
          rw [hpo]
          simp [gtProcs, hd2]
        | blockScope =>
          rw [hpo]
          simp only [gtProcs]
          cases hg : gtProcs gtl with
          | nil => simp [hd2]
          | cons pr tl =>
            obtain ⟨pd, off⟩ := pr
            have hlt : pd < (gtl.length : Int) :=
              gtProcs_head_lt gtl pd off (by simp [hg])
            have : ¬ pd ≥ (if st.incNext then st.depth + 1 else st.depth) - 1 := by omega
            simp [this, hd2, hg, hlt]
      cases data with
      | procedure p =>
        have hss : ss = true := hps p rfl
        subst hss
        subst hgt1
        refine ⟨?_, ?_, ?_⟩
        · simp only [scopeStep, kindOf]
          rw [hpop]
          simp [gtProcs]
        · simp only [scopeStep, kindOf]
          rw [hpop]
          simp
        · simp [kindOf]
      | inlineSite site =>
        subst hgt1
        refine ⟨?_, ?_, ?_⟩
        · simp only [scopeStep, kindOf]
          rw [hpop]
          cases ss <;> simp [gtProcs]
        · simp only [scopeStep, kindOf]
          rw [hpop]
          cases ss <;> simp [gtProcs]
        · intro h
          simp [scopeStep] at h
          simp [h, kindOf]
      | other =>
        subst hgt1
        refine ⟨?_, ?_, ?_⟩
        · simp only [scopeStep, kindOf]
          rw [hpop]
          cases ss <;> simp [gtProcs]
        · simp only [scopeStep, kindOf]
          rw [hpop]
          cases ss <;> simp [gtProcs]
        · intro h
          simp [scopeStep] at h
          simp [h, kindOf]

lemma scopeRun_inv : ∀ (syms : List Sym) (st : ScopeSt) (gt gt1 : List ScopeKind),
    Inv st gt → gtRun gt syms = some gt1 → procsStartScope syms = true →
    Inv (scopeRun st syms) gt1 := by
  intro syms
  induction syms with
  | nil =>
    intro st gt gt1 h hrun _
    simp [gtRun] at hrun
    subst hrun
    simpa [scopeRun] using h
  | cons s rest ih =>
    intro st gt gt1 h hrun hall
    simp only [gtRun] at hrun
    cases hg : gtStep gt s with
    | none => rw [hg] at hrun; cases hrun
    | some g2 =>
      rw [hg] at hrun
      have hall2 : procsStartScope rest = true := by
        revert hall
        simp only [procsStartScope, List.all_cons, Bool.and_eq_true]
        intro hall
        exact hall.2
      have hs : ∀ p, s.data = SymData.procedure p → s.startsScope = true := by
        intro p hp
        simp [procsStartScope, List.all_cons, hp] at hall
        exact hall.1
      exact ih (scopeStep st s) g2 gt1 (scopeStep_inv st s gt g2 h hg hs) hrun hall2

lemma stepSym_state (ctx : ModuleCtx) (targets : List Nat) (st : ScopeSt) (s : Sym)
    (st2 : ScopeSt) (out : List (Nat × Frame))
    (h : stepSym ctx targets st s = some (st2, out)) : st2 = scopeStep st s := by
  cases hd : s.data with
  | procedure p =>
    simp only [stepSym, hd] at h
    cases ham : ctx.addressMap p.offset with
    | none =>
      rw [ham] at h
      simp at h
      exact h.1.symm
    | some start =>
      rw [ham] at h
      simp only at h
      cases hq : procTargetsEmit ctx.addressMap ctx.linesAt p start targets with
      | none => rw [hq] at h; simp at h
      | some o =>
        rw [hq] at h
        simp at h
        exact h.1.symm
  | inlineSite site =>
    simp only [stepSym, hd] at h
    cases hps : (scopeStep st s).procOffsets with
    | nil => rw [hps] at h; cases h
    | cons pr tl =>
      rw [hps] at h
      obtain ⟨pd, po⟩ := pr
      simp only at h
      cases hq : inlineSiteEmit ctx targets po site with
      | none => rw [hq] at h; cases h
      | some o =>
        rw [hq] at h
        simp at h
        exact h.1.symm
  | other =>
    simp [stepSym, hd] at h
    exact h.1.symm

end PdbAddr2Line

namespace PdbAddr2Line

lemma covering_line_sound : ∀ (recs : List RawLine) (a : Nat) (r : RawLine),
    covering_line recs a = some r →
    (r.offset ≤ a ∧ specCoversB a recs r = true) ∨ lastRecord recs = some r := by
  intro recs a
  induction recs with
  | nil => intro r h; simp [covering_line] at h
  | cons r0 rest ih =>
    intro r h
    cases rest with
    | nil =>
      simp [covering_line] at h
      subst h
      right
      rfl
    | cons r1 t =>
      by_cases hc : r0.offset ≤ a ∧ a < r1.offset
      · rw [covering_line, if_pos hc] at h
        injection h with h
        subst h
        left
        refine ⟨hc.1, ?_⟩
        simp [specCoversB, hc.1, hc.2]
      · rw [covering_line, if_neg hc] at h
        rcases ih r h with hl | hr
        · left
          refine ⟨hl.1, ?_⟩
          simp [specCoversB, hl.2]
        · right
          simpa [lastRecord] using hr

lemma covering_line_total : ∀ (rest : List RawLine) (a : Nat) (r0 : RawLine),
    r0.offset ≤ a →
    ∃ r, covering_line (r0 :: rest) a = some r ∧ r.offset ≤ a ∧
      specCoversB a (r0 :: rest) r = true := by
  intro rest a
  induction rest with
  | nil =>
    intro r0 h0
    exact ⟨r0, rfl, h0, by simp [specCoversB, h0]⟩
  | cons r1 t ih =>
    intro r0 h0
    by_cases hc : a < r1.offset
    · refine ⟨r0, ?_, h0, ?_⟩
      · rw [covering_line, if_pos ⟨h0, hc⟩]
      · simp [specCoversB, h0, hc]
    · have h1 : r1.offset ≤ a := by omega
      obtain ⟨r, hr, hr1, hr2⟩ := ih r1 h1
      refine ⟨r, ?_, hr1, ?_⟩
      · rw [covering_line, if_neg (by tauto)]
        exact hr
      · simp [specCoversB, hr2]

lemma procLineQuery_pure (nm : String) (t : Nat) : ∀ recs : List RawLine,
    procLineQuery (fun o => some o) nm t recs =
      some (match covering_line recs t with
            | some r => [⟨nm, r.file, r.line⟩]
            | none => []) := by
  intro recs
  induction recs with
  | nil => simp [procLineQuery, covering_line]
  | cons r0 rest ih =>
    cases rest with
    | nil => simp [procLineQuery, covering_line]
    | cons r1 t2 =>
      by_cases h0 : r0.offset ≤ t
      · by_cases h1 : t < r1.offset
        · simp [procLineQuery, covering_line, h0, h1]
        · rw [procLineQuery, covering_line]
          simp only [h0, h1, if_true, if_false, if_pos, if_neg, not_false_iff]
          exact ih
      · rw [procLineQuery, covering_line]
        rw [if_neg (by tauto)]
        simp only
        rw [if_neg h0]
        exact ih

lemma findInlineeName_of_no_entry : ∀ (ipi : List IdItem) (inlineeId : Nat),
    hasFnEntry ipi inlineeId = false → findInlineeName inlineeId ipi = none := by
  intro ipi inlineeId
  induction ipi with
  | nil => intro _; rfl
  | cons item rest ih =>
    intro h
    rw [hasFnEntry, List.any_cons] at h
    have hpair := Bool.or_eq_false_iff.mp h
    have htail : hasFnEntry rest inlineeId = false := hpair.2
    cases item with
    | err =>
      rw [findInlineeName]
      exact ih htail
    | entry idx nm =>
      rw [findInlineeName]
      by_cases hidx : idx = inlineeId
      · subst hidx
        cases nm with
        | none => simp
        | some s =>
          exfalso
          have := hpair.1
          simp at this
      · rw [if_neg hidx]
        exact ih htail

lemma procTargetsEmit_mem : ∀ (ts : List Nat) (am : Nat → Option Nat)
    (la : Nat → List RawLine) (p : ProcSym) (start : Nat) (out : List (Nat × Frame)),
    procTargetsEmit am la p start ts = some out →
    ∀ t fr, (t, fr) ∈ out → start ≤ t ∧ t < start + p.len := by
  intro ts
  induction ts with
  | nil =>
    intro am la p start out h t fr hm
    simp [procTargetsEmit] at h
    subst h
    cases hm
  | cons t0 rest ih =>
    intro am la p start out h t fr hm
    rw [procTargetsEmit] at h
    by_cases hr : start ≤ t0 ∧ t0 < start + p.len
    · rw [if_pos hr] at h
      cases hq : procLineQuery am p.name t0 (la p.offset) with
      | none => rw [hq] at h; cases h
      | some fs =>
        rw [hq] at h
        simp only at h
        cases hrest : procTargetsEmit am la p start rest with
        | none => rw [hrest] at h; cases h
        | some out2 =>
          rw [hrest] at h
          simp only at h
          injection h with h
          subst h
          rcases List.mem_append.mp hm with hm1 | hm2
          · rcases List.mem_map.mp hm1 with ⟨f, _, hf⟩
            have : t0 = t := congrArg Prod.fst hf
            subst this
            exact hr
          · exact ih am la p start out2 hrest t fr hm2
    · rw [if_neg hr] at h
      exact ih am la p start out h t fr hm

lemma inlineTargetsEmit_mem : ∀ (ts : List Nat) (ipi : List IdItem) (inlineeId : Nat)
    (l : LineInfo) (out : List (Nat × Frame)),
    inlineTargetsEmit ipi inlineeId l ts = some out →
    ∀ t fr, (t, fr) ∈ out → rangeTest l t = some true := by
  intro ts
  induction ts with
  | nil =>
    intro ipi inlineeId l out h t fr hm
    simp [inlineTargetsEmit] at h
    subst h
    cases hm
  | cons t0 rest ih =>
    intro ipi inlineeId l out h t fr hm
    rw [inlineTargetsEmit] at h
    cases hrt : rangeTest l t0 with
    | none => rw [hrt] at h; cases h
    | some b =>
      rw [hrt] at h
      cases b with
      | true =>
        simp only at h
        cases hrest : inlineTargetsEmit ipi inlineeId l rest with
        | none => rw [hrest] at h; cases h
        | some out2 =>
          rw [hrest] at h
          simp only [Option.map] at h
          injection h with h
          subst h
          rcases List.mem_cons.mp hm with hm1 | hm2
          · have : t0 = t := congrArg Prod.fst hm1.symm
            subst this
            exact hrt
          · exact ih ipi inlineeId l out2 hrest t fr hm2
      | false =>
        simp only at h
        exact ih ipi inlineeId l out h t fr hm

lemma inlineLinesEmit_mem : ∀ (ls : List LineInfo) (ipi : List IdItem) (inlineeId : Nat)
    (ts : List Nat) (out : List (Nat × Frame)),
    inlineLinesEmit ipi inlineeId ls ts = some out →
    ∀ t fr, (t, fr) ∈ out → ∃ l ∈ ls, rangeTest l t = some true := by
  intro ls
  induction ls with
  | nil =>
    intro ipi inlineeId ts out h t fr hm
    simp [inlineLinesEmit] at h
    subst h
    cases hm
  | cons l0 rest ih =>
    intro ipi inlineeId ts out h t fr hm
    rw [inlineLinesEmit] at h
    cases h1 : inlineTargetsEmit ipi inlineeId l0 ts with
    | none => rw [h1] at h; cases h
    | some out1 =>
      rw [h1] at h
      simp only at h
      cases h2 : inlineLinesEmit ipi inlineeId rest ts with
      | none => rw [h2] at h; cases h
      | some out2 =>
        rw [h2] at h
        simp only [Option.map] at h
        injection h with h
        subst h
        rcases List.mem_append.mp hm with hm1 | hm2
        · exact ⟨l0, List.mem_cons_self l0 rest,
            inlineTargetsEmit_mem ts ipi inlineeId l0 out1 h1 t fr hm1⟩
        · obtain ⟨l, hl, hrt⟩ := ih ipi inlineeId ts out2 h2 t fr hm2
          exact ⟨l, List.mem_cons_of_mem l0 hl, hrt⟩

lemma stepSym_mem (ctx : ModuleCtx) (targets : List Nat) (st : ScopeSt) (s : Sym)
    (st2 : ScopeSt) (out : List (Nat × Frame)) (t : Nat) (fr : Frame)
    (h : stepSym ctx targets st s = some (st2, out)) (hm : (t, fr) ∈ out) :
    symProcCovers ctx.addressMap t s = true ∨
    (∃ site lineFn po l, s.data = SymData.inlineSite site ∧
      ctx.inlinees site.inlinee = some lineFn ∧
      l ∈ collect_lines ctx.addressMap (lineFn po) ∧ rangeTest l t = some true) := by
  cases hd : s.data with
  | procedure p =>
    simp only [stepSym, hd] at h
    cases ham : ctx.addressMap p.offset with
    | none =>
      rw [ham] at h
      simp at h
      rw [h.2] at hm
      cases hm
    | some start =>
      rw [ham] at h
      simp only at h
      cases hq : procTargetsEmit ctx.addressMap ctx.linesAt p start targets with
      | none => rw [hq] at h; cases h
      | some o =>
        rw [hq] at h
        simp at h
        rw [← h.2] at hm
        have := procTargetsEmit_mem targets ctx.addressMap ctx.linesAt p start o hq t fr hm
        left
        simp [symProcCovers, hd, ham, this.1, this.2]
  | inlineSite site =>
    simp only [stepSym, hd] at h
    cases hps : (scopeStep st s).procOffsets with
    | nil => rw [hps] at h; cases h
    | cons pr tl =>
      rw [hps] at h
      obtain ⟨pd, po⟩ := pr
      simp only at h
      rw [inlineSiteEmit] at h
      cases hin : ctx.inlinees site.inlinee with
      | none =>
        rw [hin] at h
        simp at h
        rw [h.2] at hm
        cases hm
      | some lineFn =>
        rw [hin] at h
        simp only at h
        cases hq : inlineLinesEmit ctx.ipi site.inlinee
            (collect_lines ctx.addressMap (lineFn po)) targets with
        | none => rw [hq] at h; cases h
        | some o =>
          rw [hq] at h
          simp at h
          rw [← h.2] at hm
          obtain ⟨l, hl, hrt⟩ := inlineLinesEmit_mem
            (collect_lines ctx.addressMap (lineFn po)) ctx.ipi site.inlinee targets o hq t fr hm
          exact Or.inr ⟨site, lineFn, po, l, rfl, hin, hl, hrt⟩
  | other =>
    simp [stepSym, hd] at h
    rw [h.2] at hm
    cases hm

lemma runSymbols_mem : ∀ (syms : List Sym) (ctx : ModuleCtx) (targets : List Nat)
    (st : ScopeSt) (out : List (Nat × Frame)) (t : Nat) (fr : Frame),
    runSymbols ctx targets st syms = some out → (t, fr) ∈ out →
    ∃ s ∈ syms, symProcCovers ctx.addressMap t s = true ∨
      (∃ site lineFn po l, s.data = SymData.inlineSite site ∧
        ctx.inlinees site.inlinee = some lineFn ∧
        l ∈ collect_lines ctx.addressMap (lineFn po) ∧ rangeTest l t = some true) := by
  intro syms
  induction syms with
  | nil =>
    intro ctx targets st out t fr h hm
    simp [runSymbols] at h
    subst h
    cases hm
  | cons s rest ih =>
    intro ctx targets st out t fr h hm
    rw [runSymbols] at h
    cases h1 : stepSym ctx targets st s with
    | none => rw [h1] at h; cases h
    | some pr =>
      rw [h1] at h
      obtain ⟨st2, out1⟩ := pr
      simp only at h
      cases h2 : runSymbols ctx targets st2 rest with
      | none => rw [h2] at h; cases h
      | some out2 =>
        rw [h2] at h
        simp only at h
        injection h with h
        subst h
        rcases List.mem_append.mp hm with hm1 | hm2
        · exact ⟨s, List.mem_cons_self s rest,
            stepSym_mem ctx targets st s st2 out1 t fr h1 hm1⟩
        · obtain ⟨s2, hs2, hd⟩ := ih ctx targets st2 out2 t fr h2 hm2
          exact ⟨s2, List.mem_cons_of_mem s hs2, hd⟩

/-
Claim theorems.
-/

/-- Claim C1, counterexample to the claim as stated: on the single-record
table whose record has offset 16, querying address 5 reports that record
even though its offset is not `<= 5` — the last record is printed
unconditionally, so the claimed "only if R.offset <= A" condition fails. -/
theorem c1_covering_line_cex :
    covering_line [⟨16, none, "a", 1⟩] 5 = some ⟨16, none, "a", 1⟩ ∧
    specCoversB 5 [⟨16, none, "a", 1⟩] ⟨16, none, "a", 1⟩ = false := by
  exact ⟨rfl, rfl⟩

/-- Claim C1 (amended): for a table with strictly increasing offsets, a
reported record either satisfies the claimed coverage condition
(`R.offset <= A` and length-covers / next-record / last-record) or is the last
record, which the query reports unconditionally; and for every address `>=`
the first record's offset the query is total, the reported record satisfies
the claimed coverage condition including `R.offset <= A`, and it is the only
record reported. -/
theorem c1_covering_line_amended (recs : List RawLine) (a : Nat)
    (hinc : strictIncrB recs = true) :
    (∀ r, covering_line recs a = some r →
      (r.offset ≤ a ∧ specCoversB a recs r = true) ∨ lastRecord recs = some r)
    ∧ (∀ r0 rest, recs = r0 :: rest → r0.offset ≤ a →
      ∃ r, covering_line recs a = some r ∧ r.offset ≤ a ∧ specCoversB a recs r = true
        ∧ ∀ q, covering_line recs a = some q → q = r) := by
  constructor
  · intro r h
    exact covering_line_sound recs a r h
  · intro r0 rest h h0
    subst h
    obtain ⟨r, hr, hr1, hr2⟩ := covering_line_total rest a r0 h0
    refine ⟨r, hr, hr1, hr2, ?_⟩
    intro q hq
    rw [hr] at hq
    injection hq with hq
    exact hq.symm

/-- Witness for C1: the amended theorem applied to a concrete strictly
increasing two-record table at address 0x15. -/
theorem c1_covering_line_witness :
    (∀ r, covering_line exTable 0x15 = some r →
      (r.offset ≤ 0x15 ∧ specCoversB 0x15 exTable r = true) ∨ lastRecord exTable = some r)
    ∧ (∀ r0 rest, exTable = r0 :: rest → r0.offset ≤ 0x15 →
      ∃ r, covering_line exTable 0x15 = some r ∧ r.offset ≤ 0x15 ∧
        specCoversB 0x15 exTable r = true
        ∧ ∀ q, covering_line exTable 0x15 = some q → q = r) :=
  c1_covering_line_amended exTable 0x15 (by decide)

/-- Claim C2, counterexample to the claim as stated: the range test of
src/main.rs line 147 on a record of unknown size whose address is `<=` the
target aborts (`l.size.unwrap()` panics) instead of deciding membership, and
a whole-module run hitting such a record aborts. -/
theorem c2_range_test_cex :
    rangeTest ⟨0x1000, none, "b.c", 42⟩ 0x1000 = none ∧
    processModule ctxC2 [0x1000] symsC2 = none := by
  exact ⟨rfl, by decide⟩

/-- Claim C2 (amended): the range-membership test decides membership for
every record whose length is known, and for unknown-length records only when
the target is below the record's address (short-circuit); an unknown-length
record with `address <= target` aborts the run. -/
theorem c2_range_test_amended (l : LineInfo) (t : Nat)
    (h : l.size.isSome = true ∨ t < l.address) :
    (rangeTest l t).isSome = true := by
  rcases h with h | h
  · cases hs : l.size with
    | none => rw [hs] at h; cases h
    | some sz =>
      by_cases ha : l.address ≤ t <;> simp [rangeTest, ha, hs]
  · have ha : ¬ l.address ≤ t := by omega
    simp [rangeTest, ha]

/-- Witness for C2: the amended totality applied to an unknown-size record
with the target below its address. -/
theorem c2_range_test_witness :
    (rangeTest ⟨0x1000, none, "b.c", 42⟩ 0xFFF).isSome = true :=
  c2_range_test_amended ⟨0x1000, none, "b.c", 42⟩ 0xFFF (Or.inr (by decide))

/-- Claim C3: when the id stream holds no entry whose index equals the
inlinee id and whose payload parses as a function-kind record, the name scan
yields nothing, the emitted frame's function name is exactly
`"unknown_inline_function"`, and a matching line still emits its frame. -/
theorem c3_unknown_inline_name (ipi : List IdItem) (inlineeId : Nat) (l : LineInfo) (t : Nat)
    (hno : hasFnEntry ipi inlineeId = false) :
    findInlineeName inlineeId ipi = none ∧
    inlineFrameFor ipi inlineeId l = ⟨"unknown_inline_function", l.file, l.line⟩ ∧
    (rangeTest l t = some true →
      inlineTargetsEmit ipi inlineeId l [t] =
        some [(t, ⟨"unknown_inline_function", l.file, l.line⟩)]) := by
  have hn := findInlineeName_of_no_entry ipi inlineeId hno
  refine ⟨hn, ?_, ?_⟩
  · simp [inlineFrameFor, hn]
  · intro hrt
    simp [inlineTargetsEmit, hrt, inlineFrameFor, hn]

/-- Witness for C3: a concrete id stream with a non-matching function entry,
an error item, and a matching entry that does not parse as a function. -/
theorem c3_unknown_inline_name_witness :
    findInlineeName 7 [IdItem.entry 3 (some "f"), IdItem.err, IdItem.entry 7 none] = none ∧
    inlineFrameFor [IdItem.entry 3 (some "f"), IdItem.err, IdItem.entry 7 none] 7
        ⟨0x10, some 4, "b.c", 42⟩ =
      ⟨"unknown_inline_function", "b.c", 42⟩ ∧
    (rangeTest ⟨0x10, some 4, "b.c", 42⟩ 0x12 = some true →
      inlineTargetsEmit [IdItem.entry 3 (some "f"), IdItem.err, IdItem.entry 7 none] 7
          ⟨0x10, some 4, "b.c", 42⟩ [0x12] =
        some [(0x12, ⟨"unknown_inline_function", "b.c", 42⟩)]) :=
  c3_unknown_inline_name [IdItem.entry 3 (some "f"), IdItem.err, IdItem.entry 7 none] 7
    ⟨0x10, some 4, "b.c", 42⟩ 0x12 (by decide)

/-- Claim C4: an inline site whose inlinee id is absent from the inlinee
table is skipped entirely (the step emits nothing and succeeds, provided the
walker's procedure stack is non-empty as it is whenever the site sits inside
an open procedure), and the remainder of the walk behaves exactly as if the
site were an uninteresting record. -/
theorem c4_missing_inlinee_skip (ctx : ModuleCtx) (targets : List Nat) (st : ScopeSt)
    (ss es : Bool) (site : InlineSiteSym) (rest : List Sym)
    (habs : ctx.inlinees site.inlinee = none)
    (hne : (scopeStep st ⟨ss, es, SymData.inlineSite site⟩).procOffsets ≠ []) :
    stepSym ctx targets st ⟨ss, es, SymData.inlineSite site⟩ =
      some (scopeStep st ⟨ss, es, SymData.inlineSite site⟩, []) ∧
    runSymbols ctx targets st (⟨ss, es, SymData.inlineSite site⟩ :: rest) =
      runSymbols ctx targets st (⟨ss, es, SymData.other⟩ :: rest) := by
  have hscope : scopeStep st ⟨ss, es, SymData.inlineSite site⟩ =
      scopeStep st ⟨ss, es, SymData.other⟩ := by
    simp [scopeStep]
  have hstep : stepSym ctx targets st ⟨ss, es, SymData.inlineSite site⟩ =
      some (scopeStep st ⟨ss, es, SymData.inlineSite site⟩, []) := by
    simp only [stepSym]
    cases hps : (scopeStep st ⟨ss, es, SymData.inlineSite site⟩).procOffsets with
    | nil => exact absurd hps hne
    | cons pr tl =>
      obtain ⟨pd, po⟩ := pr
      simp only
      simp [inlineSiteEmit, habs]
  refine ⟨hstep, ?_⟩
  simp only [runSymbols, hstep]
  have hother : stepSym ctx targets st ⟨ss, es, SymData.other⟩ =
      some (scopeStep st ⟨ss, es, SymData.other⟩, []) := by
    simp [stepSym]
  rw [hother, ← hscope]

/-- Witness for C4: a concrete state with one open procedure and an inline
site whose id 3 has no inlinee entry. -/
theorem c4_missing_inlinee_skip_witness :
    stepSym exInlineCtx [5] ⟨1, false, [(0, 9)]⟩ ⟨true, false, SymData.inlineSite ⟨3⟩⟩ =
      some (scopeStep ⟨1, false, [(0, 9)]⟩ ⟨true, false, SymData.inlineSite ⟨3⟩⟩, []) ∧
    runSymbols exInlineCtx [5] ⟨1, false, [(0, 9)]⟩ [⟨true, false, SymData.inlineSite ⟨3⟩⟩] =
      runSymbols exInlineCtx [5] ⟨1, false, [(0, 9)]⟩ [⟨true, false, SymData.other⟩] :=
  c4_missing_inlinee_skip exInlineCtx [5] ⟨1, false, [(0, 9)]⟩ true false ⟨3⟩ [] rfl
    (by decide)

/-- Claim C5, counterexample to the claim as stated: a module whose only
failure is one line-record offset that the address map refuses to translate
aborts the whole run (`expect("invalid rva")` in the direct line query),
instead of dropping the record and continuing. -/
theorem c5_translation_cex : processModule ctxC5 [0x1000] symsC5 = none := by
  decide

/-- Claim C5 (amended): in the inline-site line collection a record whose
offset fails translation is dropped and collection continues, but in the
procedure's direct line query a record whose offset fails translation aborts
the run. -/
theorem c5_translation_amended (am : Nat → Option Nat) (r : RawLine) (rest : List RawLine)
    (nm : String) (t : Nat) (h : am r.offset = none) :
    collect_lines am (r :: rest) = collect_lines am rest ∧
    procLineQuery am nm t (r :: rest) = none := by
  constructor
  · simp [collect_lines, h]
  · simp [procLineQuery, h]

/-- Witness for C5: the amended behaviour at a concrete untranslatable
record. -/
theorem c5_translation_witness :
    collect_lines (fun _ => none) [⟨0, none, "a", 0⟩] = collect_lines (fun _ => none) [] ∧
    procLineQuery (fun _ => none) "foo" 5 [⟨0, none, "a", 0⟩] = none :=
  c5_translation_amended (fun _ => none) ⟨0, none, "a", 0⟩ [] "foo" 5 rfl

/-- Claim C6: over any well-formed symbol stream, at every prefix of the walk
the walker's depth is non-negative, the `proc_offsets` stack length equals
the count of currently-open, not-yet-closed procedure scopes of the reference
semantics, and the stack top holds the innermost currently-open procedure's
offset. -/
theorem c6_scope_walker_inv (syms pre rest : List Sym) (hsyms : syms = pre ++ rest)
    (hwf : wellFormed syms) :
    ∃ gt, gtRun [] pre = some gt ∧
      0 ≤ (scopeRun initWalk pre).depth ∧
      (scopeRun initWalk pre).procOffsets.length = openProcCount gt ∧
      ((scopeRun initWalk pre).procOffsets.head?).map Prod.snd = innermostProc gt := by
  obtain ⟨hso, hpss⟩ := hwf
  subst hsyms
  rcases hpre : gtRun [] pre with _ | gt
  · rw [gtRun_append] at hso
    rw [hpre] at hso
    simp at hso
  · refine ⟨gt, rfl, ?_, ?_, ?_⟩ <;>
    · have hpss1 : procsStartScope pre = true := by
        revert hpss
        simp only [procsStartScope, List.all_append, Bool.and_eq_true]
        exact fun h => h.1
      have hinv0 : Inv initWalk [] := by
        refine ⟨rfl, by simp [initWalk], by simp [initWalk]⟩
      obtain ⟨h1, h2, h3⟩ := scopeRun_inv pre initWalk [] gt hinv0 hpre hpss1
      first
      | · cases hb : (scopeRun initWalk pre).incNext
          · rw [hb] at h2
            simp at h2
            omega
          · rw [hb] at h2
            simp at h2
            have hlen : 0 < gt.length := List.length_pos.mpr (h3 hb)
            omega
      | · rw [h1]
          exact gtProcs_length gt
      | · rw [h1]
          exact gtProcs_head_inner gt

/-- Witness for C6: the invariant at the full prefix of a concrete
well-formed stream (one procedure scope, opened and closed). -/
theorem c6_scope_walker_inv_witness :
    ∃ gt, gtRun [] exScopeSyms = some gt ∧
      0 ≤ (scopeRun initWalk exScopeSyms).depth ∧
      (scopeRun initWalk exScopeSyms).procOffsets.length = openProcCount gt ∧
      ((scopeRun initWalk exScopeSyms).procOffsets.head?).map Prod.snd =
        innermostProc gt :=
  c6_scope_walker_inv exScopeSyms exScopeSyms [] (by simp) ⟨by decide, by decide⟩

/-- Claim C7, counterexample to the claim as stated: address 0x2005 lies
outside every procedure range of the module, yet the run emits an inline
frame for it, because the inline range test never checks the enclosing
procedure's range. -/
theorem c7_outside_procs_cex :
    inSomeProcRange ctxC7.addressMap symsC7 0x2005 = false ∧
    processModule ctxC7 [0x2005] symsC7 = some [(0x2005, ⟨"bar", "b.c", 42⟩)] := by
  decide

/-- Claim C7 (amended): a queried address that lies outside every
procedure's translated flat range and is covered by no collected inline line
range receives no frame at all in the module's output. -/
theorem c7_outside_procs_amended (ctx : ModuleCtx) (targets : List Nat) (syms : List Sym)
    (t : Nat) (hproc : inSomeProcRange ctx.addressMap syms t = false)
    (hinl : ∀ id lineFn po l, ctx.inlinees id = some lineFn →
      l ∈ collect_lines ctx.addressMap (lineFn po) → rangeTest l t ≠ some true) :
    ∀ out, processModule ctx targets syms = some out → ∀ fr, (t, fr) ∉ out := by
  intro out h fr hm
  obtain ⟨s, hs, hd⟩ := runSymbols_mem syms ctx targets initWalk out t fr h hm
  rcases hd with hd | ⟨site, lineFn, po, l, _, hin, hl, hrt⟩
  · have hall : inSomeProcRange ctx.addressMap syms t = true := by
      rw [inSomeProcRange]
      exact List.any_eq_true.mpr ⟨s, hs, hd⟩
    rw [hproc] at hall
    cases hall
  · exact hinl site.inlinee lineFn po l hin hl hrt

/-- Witness for C7: address 0x2000 is outside `foo`'s range in the example
module with no inlinees; the run emits no frame for it. -/
theorem c7_outside_procs_witness :
    processModule exCtx [0x2000] exSyms = some [] ∧
    (0x2000, (⟨"foo", "a.c", 10⟩ : Frame)) ∉ ([] : List (Nat × Frame)) :=
  ⟨by decide,
   c7_outside_procs_amended exCtx [0x2000] exSyms 0x2000 (by decide)
     (fun id lineFn po l hin => by simp [exCtx] at hin) [] (by decide)
     ⟨"foo", "a.c", 10⟩⟩

/-- Claim C8: the concrete scenario — procedure `foo` over [0x1000, 0x1100)
with the single line record (0x1000, "a.c", 10); querying 0x1050 yields
exactly the frame (foo, a.c, 10). -/
theorem c8_concrete_scenario :
    processModule exCtx [0x1050] exSyms = some [(0x1050, ⟨"foo", "a.c", 10⟩)] := by
  decide

/-- Claim C9: resolution is deterministic — two runs of the module pass over
identical inputs produce identical outputs (the embedding is a pure function
of the module context, targets and symbol stream; the code iterates ordered
streams and an ordered map, with no source of nondeterminism). -/
theorem c9_deterministic (ctx : ModuleCtx) (targets : List Nat) (syms : List Sym)
    (out1 out2 : Option (List (Nat × Frame)))
    (h1 : processModule ctx targets syms = out1)
    (h2 : processModule ctx targets syms = out2) : out1 = out2 := by
  subst h1
  exact h2

/-- Witness for C9: two concrete runs of the example module at 0x1050. -/
theorem c9_deterministic_witness :
    (some [(0x1050, (⟨"foo", "a.c", 10⟩ : Frame))] : Option (List (Nat × Frame))) =
      some [(0x1050, ⟨"foo", "a.c", 10⟩)] :=
  c9_deterministic exCtx [0x1050] exSyms _ _ (by decide) rfl

/-- Claim C10: processing an inline site requires a non-empty procedure
stack — with the stack empty the step aborts (`last().unwrap()` panics,
not a skip), and with a non-empty stack the unwrap succeeds and the step
proceeds with the stack top as the parent offset. -/
theorem c10_inline_parent_stack (ctx : ModuleCtx) (targets : List Nat) (st : ScopeSt)
    (ss : Bool) (site : InlineSiteSym) :
    (st.procOffsets = [] →
      stepSym ctx targets st ⟨ss, false, SymData.inlineSite site⟩ = none)
    ∧ (∀ pd po tl, st.procOffsets = (pd, po) :: tl →
      stepSym ctx targets st ⟨ss, false, SymData.inlineSite site⟩ =
        (inlineSiteEmit ctx targets po site).map
          (fun out => (scopeStep st ⟨ss, false, SymData.inlineSite site⟩, out))) := by
  constructor
  · intro h
    simp [stepSym, scopeStep, h]
  · intro pd po tl h
    simp [stepSym, scopeStep, h]

/-- Witness for C10: both branches at concrete states — the empty stack
aborts, the one-frame stack proceeds with parent offset 7. -/
theorem c10_inline_parent_stack_witness :
    stepSym exInlineCtx [5] ⟨0, false, []⟩ ⟨true, false, SymData.inlineSite ⟨3⟩⟩ = none ∧
    stepSym exInlineCtx [5] ⟨1, false, [(0, 7)]⟩ ⟨true, false, SymData.inlineSite ⟨3⟩⟩ =
      (inlineSiteEmit exInlineCtx [5] 7 ⟨3⟩).map
        (fun out => (scopeStep ⟨1, false, [(0, 7)]⟩ ⟨true, false, SymData.inlineSite ⟨3⟩⟩, out)) :=
  ⟨(c10_inline_parent_stack exInlineCtx [5] ⟨0, false, []⟩ true ⟨3⟩).1 rfl,
   (c10_inline_parent_stack exInlineCtx [5] ⟨1, false, [(0, 7)]⟩ true ⟨3⟩).2 0 7 [] rfl⟩

end PdbAddr2Line
